import Mathlib

/-!
Shallow embedding of the tml bytecode virtual machine (src/src/vm.c) and
proofs about it.  Machine integers are modelled as `Nat`; the byte stream is a
`List Nat` of byte values; out-of-range fetches read 0 (the VM trusts the
bytecode and performs no bounds checks).  Heap traffic is tracked by two
counters, `allocs` and `frees`, incremented exactly where the C code calls
MALLOC/CALLOC/REALLOC and FREE (a REALLOC counts as one free plus one alloc,
matching the debug_realloc instrumentation in vm.c).
-/

namespace Tml

/-- Opcode numbers, from the defines at the top of vm.c. -/
def opLEFT : Nat := 0
def opRIGHT : Nat := 1
def opLEFT_N : Nat := 2
def opRIGHT_N : Nat := 3
def opWRITE_ARG : Nat := 4
def opWRITE_VAL : Nat := 5
def opWRITE_BOUND : Nat := 6
def opSYMBOL_ARG : Nat := 7
def opSYMBOL_VAL : Nat := 8
def opSYMBOL_BOUND : Nat := 9
def opTAKE_ARG : Nat := 10
def opCLONE_ARG : Nat := 11
def opFREE_ARG : Nat := 12
def opMAKE_STATE : Nat := 13
def opFINAL_STATE : Nat := 14
def opFINAL_ARG : Nat := 15
def opCOMPARE_ARG : Nat := 16
def opCOMPARE_VAL : Nat := 17
def opOTHER : Nat := 18
def opHALT : Nat := 19

/-- INTIAL_TAPE_CAPACITY in vm.c (the misspelling is the source's). -/
def initialTapeCapacity : Nat := 256

/-- The recursive `State` struct of vm.c: an address, owned child states and
an owned symbol list. -/
inductive StateV : Type where
  | mk : Nat → List StateV → List Nat → StateV
deriving Repr

def StateV.address : StateV → Nat
  | .mk a _ _ => a

def StateV.children : StateV → List StateV
  | .mk _ c _ => c

def StateV.syms : StateV → List Nat
  | .mk _ _ y => y

/-- The zero-initialized `State` (C globals start zeroed). -/
def defaultStateV : StateV := .mk 0 [] []

instance : Inhabited StateV := ⟨defaultStateV⟩

/-- Number of heap blocks owned by a `State` tree: one block for the child
array when `state_count` is nonzero, one for the symbol array when
`symbol_count` is nonzero, plus the blocks of the children.  `clone_state`
allocates exactly this many blocks and `free_state` frees exactly this many. -/
def stateBlocks : StateV → Nat
  | .mk a cs ys =>
    (if cs.isEmpty then 0 else 1) + (if ys.isEmpty then 0 else 1) +
      (cs.attach.map fun c => stateBlocks c.1).sum
decreasing_by
  rename_i a cs ys
  have h1 : sizeOf c.1 < sizeOf cs := List.sizeOf_lt_of_mem c.2
  have h2 : sizeOf (StateV.mk a cs ys) = 1 + sizeOf a + sizeOf cs + sizeOf ys :=
    StateV.mk.sizeOf_spec a cs ys
  omega

/-- The whole mutable state of the VM: the globals of vm.c.  Pointers into
the tape are represented by the index `head`; the instruction pointer `ip` is
an index into `bytes`; the two register files are total functions so that
stale entries beyond the current counts persist, as the C arrays do. -/
structure VM : Type where
  bytes : List Nat
  ip : Nat
  tape : List Nat
  head : Nat
  address : Nat
  stateRegs : Nat → StateV
  stateCount : Nat
  symbolRegs : Nat → Nat
  symbolCount : Nat
  stateScratch : List StateV
  symbolScratch : List Nat
  bound : Nat
  moves : Nat
  allocs : Nat
  frees : Nat

/-- Fetch one byte; out-of-range reads 0 (the C code does `*ip++` with no
bounds check on trusted bytecode). -/
def byteAt (bs : List Nat) (i : Nat) : Nat := bs.getD i 0

/-- Little-endian u16 at offset `i`: `low | (high << 8)` as in `next_u16`. -/
def u16At (bs : List Nat) (i : Nat) : Nat :=
  byteAt bs i + 256 * byteAt bs (i + 1)

/-- Little-endian u32 at offset `i`, as in `next_u32`. -/
def u32At (bs : List Nat) (i : Nat) : Nat :=
  byteAt bs i + 256 * byteAt bs (i + 1) + 65536 * byteAt bs (i + 2) +
    16777216 * byteAt bs (i + 3)

/-- The function `tape_left`: if the head offset is `< n`, clamp the head to 0 and return
STOP (true); otherwise move the head left by `n` and return CONTINUE
(false). -/
def tape_left (s : VM) (n : Nat) : VM × Bool :=
  if s.head < n then ({ s with head := 0 }, true)
  else ({ s with head := s.head - n }, false)

/-- The function `tape_right`: move the head right; growth is deferred to the next
write. -/
def tape_right (s : VM) (n : Nat) : VM := { s with head := s.head + n }

/-- The function `read_tape`: a read at or past the allocated end returns the blank
symbol 0 and never grows the tape. -/
def read_tape (s : VM) : Nat :=
  if s.tape.length ≤ s.head then 0 else s.tape.getD s.head 0

/-- The tape contents after `write_tape`: in-range writes store in place;
out-of-range writes of a nonzero value realloc to `2 * head` cells, zero-fill
the new region and store; out-of-range writes of 0 do nothing. -/
def writeGrow (t : List Nat) (head v : Nat) : List Nat :=
  if head < t.length then t.set head v
  else if v = 0 then t
  else ((t.take (2 * head)) ++ List.replicate (2 * head - t.length) 0).set head v

/-- Heap events of `write_tape`: the growing branch does one REALLOC, which
counts as one free plus one alloc. -/
def writeHeapEvents (t : List Nat) (head v : Nat) : Nat :=
  if head < t.length then 0 else if v = 0 then 0 else 1

/-- The function `write_tape` on the VM state. -/
def write_tape (s : VM) (v : Nat) : VM :=
  { s with
    tape := writeGrow s.tape s.head v,
    allocs := s.allocs + writeHeapEvents s.tape s.head v,
    frees := s.frees + writeHeapEvents s.tape s.head v }

/-- The symbol-register update performed by FINAL_ARG in vm.c: the code does
`memcpy(symbols, state.symbols, state.symbol_count * sizeof(uint8_t))`, i.e.
it copies only `symbol_count` BYTES of the little-endian 16-bit symbol
array.  Register word `i` therefore receives source bytes `2*i` and `2*i+1`
when both lie below `symbol_count`, only the low source byte (keeping its
own stale high byte) when exactly byte `2*i` lies below `symbol_count`, and
is untouched otherwise. -/
def finalArgSymCopy (old : Nat → Nat) (src : List Nat) : Nat → Nat :=
  fun i =>
    if 2 * i + 1 < src.length then src.getD i 0
    else if 2 * i < src.length then src.getD i 0 % 256 + 256 * (old i / 256)
    else old i

/-- Result of one iteration of the `run_rhs` loop body: either the loop
continues with a new state, or the function returns (with the STOP /
CONTINUE flag). -/
inductive StepRes : Type where
  | cont : VM → StepRes
  | done : VM → Bool → StepRes

def StepRes.vm : StepRes → VM
  | .cont s => s
  | .done s _ => s

/-- The case bodies of the `run_rhs` dispatch loop of vm.c (the switch and
the computed-goto bodies are identical), indexed by the opcode byte, which
has already been fetched (so operands start at `ip + 1` and every branch
accounts for the consumed opcode byte in its final `ip`).  An opcode outside
0..15 falls through the switch and the loop continues, having consumed only
the opcode byte. -/
def rhsExec : Nat → VM → StepRes
  | 0, s =>  -- LEFT
    if (tape_left { s with ip := s.ip + 1 } 1).2 then
      .done (tape_left { s with ip := s.ip + 1 } 1).1 true
    else .cont (tape_left { s with ip := s.ip + 1 } 1).1
  | 1, s =>  -- RIGHT
    .cont (tape_right { s with ip := s.ip + 1 } 1)
  | 2, s =>  -- LEFT_N
    if (tape_left { s with ip := s.ip + 2 } (byteAt s.bytes (s.ip + 1))).2 then
      .done (tape_left { s with ip := s.ip + 2 } (byteAt s.bytes (s.ip + 1))).1 true
    else .cont (tape_left { s with ip := s.ip + 2 } (byteAt s.bytes (s.ip + 1))).1
  | 3, s =>  -- RIGHT_N
    .cont (tape_right { s with ip := s.ip + 2 } (byteAt s.bytes (s.ip + 1)))
  | 4, s =>  -- WRITE_ARG
    .cont (write_tape { s with ip := s.ip + 2 }
      (s.symbolRegs (byteAt s.bytes (s.ip + 1))))
  | 5, s =>  -- WRITE_VAL
    .cont (write_tape { s with ip := s.ip + 3 } (u16At s.bytes (s.ip + 1)))
  | 6, s =>  -- WRITE_BOUND
    .cont (write_tape { s with ip := s.ip + 1 } s.bound)
  | 7, s =>  -- SYMBOL_ARG
    .cont { s with
            ip := s.ip + 2,
            symbolScratch :=
              s.symbolScratch ++ [s.symbolRegs (byteAt s.bytes (s.ip + 1))] }
  | 8, s =>  -- SYMBOL_VAL
    .cont { s with
            ip := s.ip + 3,
            symbolScratch := s.symbolScratch ++ [u16At s.bytes (s.ip + 1)] }
  | 9, s =>  -- SYMBOL_BOUND
    .cont { s with ip := s.ip + 1, symbolScratch := s.symbolScratch ++ [s.bound] }
  | 10, s =>  -- TAKE_ARG
    .cont { s with
            ip := s.ip + 2,
            stateScratch :=
              s.stateScratch ++ [s.stateRegs (byteAt s.bytes (s.ip + 1))] }
  | 11, s =>  -- CLONE_ARG
    .cont { s with
            ip := s.ip + 2,
            stateScratch :=
              s.stateScratch ++ [s.stateRegs (byteAt s.bytes (s.ip + 1))],
            allocs :=
              s.allocs + stateBlocks (s.stateRegs (byteAt s.bytes (s.ip + 1))) }
  | 12, s =>  -- FREE_ARG
    .cont { s with
            ip := s.ip + 2,
            frees :=
              s.frees + stateBlocks (s.stateRegs (byteAt s.bytes (s.ip + 1))) }
  | 13, s =>  -- MAKE_STATE
    .cont { s with
            ip := s.ip + 6,
            stateScratch :=
              s.stateScratch.take
                  (s.stateScratch.length - byteAt s.bytes (s.ip + 1)) ++
                [StateV.mk (u32At s.bytes (s.ip + 2))
                  (s.stateScratch.drop
                    (s.stateScratch.length - byteAt s.bytes (s.ip + 1)))
                  s.symbolScratch],
            symbolScratch := [],
            allocs :=
              s.allocs + (if byteAt s.bytes (s.ip + 1) = 0 then 0 else 1) +
                (if s.symbolScratch.isEmpty then 0 else 1) }
  | 14, s =>  -- FINAL_STATE
    .done { s with
            ip := u32At s.bytes (s.ip + 1),
            address := u32At s.bytes (s.ip + 1),
            stateCount := s.stateScratch.length,
            symbolCount := s.symbolScratch.length,
            stateRegs := fun i =>
              if i < s.stateScratch.length then
                s.stateScratch.getD i defaultStateV
              else s.stateRegs i,
            symbolRegs := fun i =>
              if i < s.symbolScratch.length then s.symbolScratch.getD i 0
              else s.symbolRegs i,
            stateScratch := [],
            symbolScratch := [] } false
  | 15, s =>  -- FINAL_ARG
    .done { s with
            ip := (s.stateRegs (byteAt s.bytes (s.ip + 1))).address,
            address := (s.stateRegs (byteAt s.bytes (s.ip + 1))).address,
            stateCount :=
              (s.stateRegs (byteAt s.bytes (s.ip + 1))).children.length,
            stateRegs := fun j =>
              if j < (s.stateRegs (byteAt s.bytes (s.ip + 1))).children.length
              then
                (s.stateRegs
                  (byteAt s.bytes (s.ip + 1))).children.getD j defaultStateV
              else s.stateRegs j,
            symbolCount := (s.stateRegs (byteAt s.bytes (s.ip + 1))).syms.length,
            symbolRegs :=
              finalArgSymCopy s.symbolRegs
                (s.stateRegs (byteAt s.bytes (s.ip + 1))).syms,
            frees :=
              s.frees +
                (if (s.stateRegs (byteAt s.bytes (s.ip + 1))).children.isEmpty
                 then 0 else 1) +
                (if (s.stateRegs (byteAt s.bytes (s.ip + 1))).syms.isEmpty
                 then 0 else 1) } false
  | _ + 16, s =>
    .cont { s with ip := s.ip + 1 }

/-- One iteration of the `run_rhs` dispatch loop: fetch the opcode byte and
dispatch on it. -/
def rhsStep (s : VM) : StepRes := rhsExec (byteAt s.bytes s.ip) s

/-- The `run_rhs` loop, with fuel: `none` means the fuel ran out before the
loop returned. -/
def run_rhs : Nat → VM → Option (VM × Bool)
  | 0, _ => none
  | fuel + 1, s =>
    match rhsStep s with
    | .cont s2 => run_rhs fuel s2
    | .done s2 b => some (s2, b)

/-- Result of one iteration of the `run_move` loop body: keep scanning arms,
enter the RHS evaluator, or return STOP. -/
inductive MoveRes : Type where
  | next : VM → MoveRes
  | rhs : VM → MoveRes
  | stop : VM → MoveRes

def MoveRes.vm : MoveRes → VM
  | .next s => s
  | .rhs s => s
  | .stop s => s

/-- The case bodies of the `run_move` arm-scanning loop of vm.c, indexed by
the already-fetched opcode byte.  On a COMPARE miss the skip field is
fetched (advancing the IP by 2) and then added to the IP; on a match the
skip field is fetched and discarded and the RHS evaluator is entered; OTHER
binds the symbol under the head; HALT returns STOP; any other opcode falls
through the switch and the loop continues. -/
def moveExec : Nat → VM → MoveRes
  | 16, s =>  -- COMPARE_ARG
    if read_tape s = s.symbolRegs (byteAt s.bytes (s.ip + 1)) then
      .rhs { s with ip := s.ip + 4 }
    else .next { s with ip := s.ip + 4 + u16At s.bytes (s.ip + 2) }
  | 17, s =>  -- COMPARE_VAL
    if u16At s.bytes (s.ip + 1) = read_tape s then
      .rhs { s with ip := s.ip + 5 }
    else .next { s with ip := s.ip + 5 + u16At s.bytes (s.ip + 3) }
  | 18, s =>  -- OTHER
    .rhs { s with ip := s.ip + 1, bound := read_tape s }
  | 19, s =>  -- HALT
    .stop { s with ip := s.ip + 1 }
  | _, s => .next { s with ip := s.ip + 1 }

/-- One iteration of the `run_move` arm-scanning loop: fetch the opcode byte
and dispatch on it. -/
def moveStep (s : VM) : MoveRes := moveExec (byteAt s.bytes s.ip) s

/-- The `run_move` loop, with fuel. -/
def run_move : Nat → VM → Option (VM × Bool)
  | 0, _ => none
  | fuel + 1, s =>
    match moveStep s with
    | .next s2 => run_move fuel s2
    | .rhs s2 => run_rhs fuel s2
    | .stop s2 => some (s2, true)

/-- The move loop of `run`: `k` is the remaining budget `max_moves - moves`
(the C loop `while (moves < max_moves)` re-checks the budget before every
move, so the countdown is equivalent; `moves` only changes through the
increment after a CONTINUE move).  A STOP from `run_move` breaks out of the
loop before the increment. -/
def runLoop (fuel : Nat) : Nat → VM → Option VM
  | 0, s => some s
  | k + 1, s =>
    match run_move fuel s with
    | none => none
    | some (s2, true) => some s2
    | some (s2, false) => runLoop fuel k { s2 with moves := s2.moves + 1 }

/-- The function `init_tape`: a zero-filled backing array of `max len 256` cells with the
initial symbols copied to the front (one CALLOC), head at 0; together with
the zero-initialized globals of vm.c. -/
def initVM (bytes tape0 : List Nat) : VM :=
  { bytes := bytes,
    ip := 0,
    tape := tape0 ++ List.replicate (max tape0.length initialTapeCapacity - tape0.length) 0,
    head := 0,
    address := 0,
    stateRegs := fun _ => defaultStateV,
    stateCount := 0,
    symbolRegs := fun _ => 0,
    symbolCount := 0,
    stateScratch := [],
    symbolScratch := [],
    bound := 0,
    moves := 0,
    allocs := 1,
    frees := 0 }

/-- The functions `init_tape` followed by `run`: skip the 2-byte header, read the 4-byte
entry address, jump there, and run the bounded move loop. -/
def run (fuel : Nat) (bytes tape0 : List Nat) (maxMoves : Nat) : Option VM :=
  runLoop fuel maxMoves
    { initVM bytes tape0 with ip := u32At bytes 2, address := u32At bytes 2 }

/-- Heap blocks freed by `cleanup` for the argument registers
`states[0..state_count)`. -/
def regsFrees (regs : Nat → StateV) : Nat → Nat
  | 0 => 0
  | n + 1 => regsFrees regs n + stateBlocks (regs n)

/-- The function `cleanup`: free the tape (one block) and deep-free each current state
argument. -/
def cleanup (s : VM) : VM :=
  { s with frees := s.frees + 1 + regsFrees s.stateRegs s.stateCount }

/-! Helper lemmas. -/

theorem tape_left_fst (s : VM) (n : Nat) :
    (tape_left s n).1 = { s with head := if s.head < n then 0 else s.head - n } := by
  unfold tape_left
  split_ifs <;> rfl

theorem tape_left_snd (s : VM) (n : Nat) :
    (tape_left s n).2 = decide (s.head < n) := by
  unfold tape_left
  split_ifs with h <;> simp [h]

theorem writeGrow_length (t : List Nat) (h v : Nat) :
    t.length ≤ (writeGrow t h v).length := by
  unfold writeGrow
  split_ifs with h1 h2
  · simp
  · exact Nat.le_refl _
  · simp only [List.length_set, List.length_append, List.length_take,
      List.length_replicate]
    omega

theorem rhsExec_moves (n : Nat) (s : VM) : (rhsExec n s).vm.moves = s.moves := by
  match n with
  | 0 | 2 =>
    dsimp only [rhsExec]
    split_ifs <;> simp [StepRes.vm, tape_left_fst]
  | 1 | 3 | 4 | 5 | 6 | 7 | 8 | 9 | 10 | 11 | 12 | 13 | 14 | 15 => rfl
  | _ + 16 => rfl

theorem rhsStep_moves (s : VM) : (rhsStep s).vm.moves = s.moves :=
  rhsExec_moves (byteAt s.bytes s.ip) s

theorem rhsExec_tape_length (n : Nat) (s : VM) :
    s.tape.length ≤ (rhsExec n s).vm.tape.length := by
  match n with
  | 0 | 2 =>
    dsimp only [rhsExec]
    split_ifs <;> simp [StepRes.vm, tape_left_fst]
  | 4 | 5 | 6 =>
    dsimp only [rhsExec, StepRes.vm, write_tape]
    exact writeGrow_length _ _ _
  | 1 | 3 | 7 | 8 | 9 | 10 | 11 | 12 | 13 | 14 | 15 => exact Nat.le_refl _
  | _ + 16 => exact Nat.le_refl _

theorem rhsStep_tape_length (s : VM) :
    s.tape.length ≤ (rhsStep s).vm.tape.length :=
  rhsExec_tape_length (byteAt s.bytes s.ip) s

theorem rhsExec_done_true_head (n : Nat) (s s2 : VM)
    (h : rhsExec n s = .done s2 true) : s2.head = 0 := by
  match n with
  | 0 | 2 =>
    dsimp only [rhsExec] at h
    split_ifs at h with hc
    · injection h with h1
      rw [tape_left_snd] at hc
      simp only [decide_eq_true_eq] at hc
      rw [← h1, tape_left_fst]
      simp [hc]
  | 1 | 3 | 4 | 5 | 6 | 7 | 8 | 9 | 10 | 11 | 12 | 13 => simp [rhsExec] at h
  | 14 | 15 => simp [rhsExec] at h
  | _ + 16 => simp [rhsExec] at h

theorem rhsStep_done_true_head (s s2 : VM) (h : rhsStep s = .done s2 true) :
    s2.head = 0 :=
  rhsExec_done_true_head (byteAt s.bytes s.ip) s s2 h

theorem moveExec_moves (n : Nat) (s : VM) : (moveExec n s).vm.moves = s.moves := by
  match n with
  | 16 | 17 =>
    dsimp only [moveExec]
    split_ifs <;> rfl
  | 18 | 19 => rfl
  | 0 | 1 | 2 | 3 | 4 | 5 | 6 | 7 | 8 | 9 | 10 | 11 | 12 | 13 | 14 | 15 => rfl
  | _ + 20 => rfl

theorem moveStep_moves (s : VM) : (moveStep s).vm.moves = s.moves :=
  moveExec_moves (byteAt s.bytes s.ip) s

theorem moveExec_tape_length (n : Nat) (s : VM) :
    s.tape.length ≤ (moveExec n s).vm.tape.length := by
  match n with
  | 16 | 17 =>
    dsimp only [moveExec]
    split_ifs <;> exact Nat.le_refl _
  | 18 | 19 => exact Nat.le_refl _
  | 0 | 1 | 2 | 3 | 4 | 5 | 6 | 7 | 8 | 9 | 10 | 11 | 12 | 13 | 14 | 15 =>
    exact Nat.le_refl _
  | _ + 20 => exact Nat.le_refl _

theorem moveStep_tape_length (s : VM) :
    s.tape.length ≤ (moveStep s).vm.tape.length :=
  moveExec_tape_length (byteAt s.bytes s.ip) s

theorem moveExec_frame (n : Nat) (s : VM) :
    (∃ p, moveExec n s = .next { s with ip := p }) ∨
    (∃ p, moveExec n s = .rhs { s with ip := p }) ∨
    moveExec n s = .rhs { s with ip := s.ip + 1, bound := read_tape s } ∨
    moveExec n s = .stop { s with ip := s.ip + 1 } := by
  match n with
  | 16 | 17 =>
    dsimp only [moveExec]
    split_ifs
    · exact Or.inr (Or.inl ⟨_, rfl⟩)
    · exact Or.inl ⟨_, rfl⟩
  | 18 => exact Or.inr (Or.inr (Or.inl rfl))
  | 19 => exact Or.inr (Or.inr (Or.inr rfl))
  | 0 | 1 | 2 | 3 | 4 | 5 | 6 | 7 | 8 | 9 | 10 | 11 | 12 | 13 | 14 | 15 =>
    exact Or.inl ⟨_, rfl⟩
  | _ + 20 => exact Or.inl ⟨_, rfl⟩

/-- Arm scanning only moves the instruction pointer, except that a matching
OTHER arm additionally binds the symbol under the head. -/
theorem moveStep_frame (s : VM) :
    (∃ p, moveStep s = .next { s with ip := p }) ∨
    (∃ p, moveStep s = .rhs { s with ip := p }) ∨
    moveStep s = .rhs { s with ip := s.ip + 1, bound := read_tape s } ∨
    moveStep s = .stop { s with ip := s.ip + 1 } :=
  moveExec_frame (byteAt s.bytes s.ip) s

/-- Induction principle for the `run_rhs` loop: any step-preserved
transitive property relates the entry state to the returned state. -/
theorem run_rhs_induct (P : VM → VM → Prop)
    (hrefl : ∀ a, P a a)
    (htrans : ∀ a b c, P a b → P b c → P a c)
    (hstep : ∀ a, P a (rhsStep a).vm) :
    ∀ (fuel : Nat) (s : VM) (r : VM × Bool), run_rhs fuel s = some r → P s r.1 := by
  intro fuel
  induction fuel with
  | zero => intro s r h; simp [run_rhs] at h
  | succ n ih =>
    intro s r h
    simp only [run_rhs] at h
    cases hstep2 : rhsStep s with
    | cont s2 =>
      rw [hstep2] at h
      have h1 : P s s2 := by have := hstep s; rwa [hstep2] at this
      exact htrans _ _ _ h1 (ih s2 r h)
    | done s2 b =>
      rw [hstep2] at h
      cases h
      have := hstep s
      rwa [hstep2] at this

/-- Induction principle for the `run_move` loop. -/
theorem run_move_induct (P : VM → VM → Prop)
    (hrefl : ∀ a, P a a)
    (htrans : ∀ a b c, P a b → P b c → P a c)
    (hstepR : ∀ a, P a (rhsStep a).vm)
    (hstepM : ∀ a, P a (moveStep a).vm) :
    ∀ (fuel : Nat) (s : VM) (r : VM × Bool), run_move fuel s = some r → P s r.1 := by
  intro fuel
  induction fuel with
  | zero => intro s r h; simp [run_move] at h
  | succ n ih =>
    intro s r h
    simp only [run_move] at h
    cases hstep2 : moveStep s with
    | next s2 =>
      rw [hstep2] at h
      have h1 : P s s2 := by have := hstepM s; rwa [hstep2] at this
      exact htrans _ _ _ h1 (ih s2 r h)
    | rhs s2 =>
      rw [hstep2] at h
      have h1 : P s s2 := by have := hstepM s; rwa [hstep2] at this
      exact htrans _ _ _ h1 (run_rhs_induct P hrefl htrans hstepR n s2 r h)
    | stop s2 =>
      rw [hstep2] at h
      cases h
      have := hstepM s
      rwa [hstep2] at this

theorem run_move_moves (fuel : Nat) (s : VM) (r : VM × Bool)
    (h : run_move fuel s = some r) : r.1.moves = s.moves :=
  run_move_induct (fun a b => b.moves = a.moves) (fun _ => rfl)
    (fun _ _ _ h1 h2 => h2.trans h1) rhsStep_moves moveStep_moves fuel s r h

theorem run_move_tape_length (fuel : Nat) (s : VM) (r : VM × Bool)
    (h : run_move fuel s = some r) : s.tape.length ≤ r.1.tape.length :=
  run_move_induct (fun a b => a.tape.length ≤ b.tape.length)
    (fun _ => Nat.le_refl _) (fun _ _ _ h1 h2 => h1.trans h2)
    rhsStep_tape_length moveStep_tape_length fuel s r h

theorem run_rhs_stop_head (fuel : Nat) (s r : VM)
    (h : run_rhs fuel s = some (r, true)) : r.head = 0 := by
  induction fuel generalizing s with
  | zero => simp [run_rhs] at h
  | succ n ih =>
    simp only [run_rhs] at h
    cases hstep2 : rhsStep s with
    | cont s2 => rw [hstep2] at h; exact ih s2 h
    | done s2 b =>
      rw [hstep2] at h
      cases h
      exact rhsStep_done_true_head s r hstep2

theorem runLoop_moves (fuel : Nat) (k : Nat) :
    ∀ s s2 : VM, runLoop fuel k s = some s2 → s2.moves ≤ s.moves + k := by
  induction k with
  | zero => intro s s2 h; cases h; omega
  | succ n ih =>
    intro s s2 h
    simp only [runLoop] at h
    cases hm : run_move fuel s with
    | none => rw [hm] at h; cases h
    | some r =>
      rw [hm] at h
      obtain ⟨r1, b⟩ := r
      cases b with
      | true =>
        dsimp only at h
        cases h
        have h4 : s2.moves = s.moves := by
          simpa using run_move_moves fuel s (s2, true) hm
        omega
      | false =>
        dsimp only at h
        have h2 := ih { r1 with moves := r1.moves + 1 } s2 h
        have h3 : r1.moves = s.moves := by
          simpa using run_move_moves fuel s (r1, false) hm
        have h4 : ({ r1 with moves := r1.moves + 1 } : VM).moves = r1.moves + 1 :=
          rfl
        rw [h4] at h2
        omega

theorem runLoop_tape_length (fuel : Nat) (k : Nat) :
    ∀ s s2 : VM, runLoop fuel k s = some s2 → s.tape.length ≤ s2.tape.length := by
  induction k with
  | zero => intro s s2 h; cases h; omega
  | succ n ih =>
    intro s s2 h
    simp only [runLoop] at h
    cases hm : run_move fuel s with
    | none => rw [hm] at h; cases h
    | some r =>
      rw [hm] at h
      obtain ⟨r1, b⟩ := r
      cases b with
      | true =>
        dsimp only at h
        cases h
        simpa using run_move_tape_length fuel s (s2, true) hm
      | false =>
        dsimp only at h
        have h2 := ih { r1 with moves := r1.moves + 1 } s2 h
        have h3 : s.tape.length ≤ r1.tape.length := by
          simpa using run_move_tape_length fuel s (r1, false) hm
        have h4 : ({ r1 with moves := r1.moves + 1 } : VM).tape = r1.tape := rfl
        rw [h4] at h2
        omega

theorem initVM_tape_length (bytes tape0 : List Nat) :
    (initVM bytes tape0).tape.length = max tape0.length initialTapeCapacity := by
  simp [initVM]

end Tml

namespace Tml

/-! Concrete machines used by witnesses and counterexamples. -/

/-- A VM state with the given bytecode, tape and head, all other components
zero-initialized (as the C globals are). -/
def mkVM (bytes tape : List Nat) (head : Nat) : VM :=
  { bytes := bytes,
    ip := 0,
    tape := tape,
    head := head,
    address := 0,
    stateRegs := fun _ => defaultStateV,
    stateCount := 0,
    symbolRegs := fun _ => 0,
    symbolCount := 0,
    stateScratch := [],
    symbolScratch := [],
    bound := 0,
    moves := 0,
    allocs := 0,
    frees := 0 }

/-! Claim theorems. -/

/-- Claim C2: `left(n)` with head `< n` clamps the head to 0 and returns
STOP, otherwise subtracts `n` and returns CONTINUE; a STOP that escapes the
RHS evaluator (a left-boundary underrun) leaves the head at 0; and a STOP
returned by `run_move` makes the move loop halt at once, returning that very
state with `move_count` not incremented for that move. -/
theorem c2_left_move_spec :
    (∀ (s : VM) (n : Nat), s.head < n →
      tape_left s n = ({ s with head := 0 }, true)) ∧
    (∀ (s : VM) (n : Nat), ¬ s.head < n →
      tape_left s n = ({ s with head := s.head - n }, false)) ∧
    (∀ (fuel : Nat) (s r : VM), run_rhs fuel s = some (r, true) → r.head = 0) ∧
    (∀ (fuel k : Nat) (s r : VM), run_move fuel s = some (r, true) →
      runLoop fuel (k + 1) s = some r ∧ r.moves = s.moves) := by
  refine ⟨?_, ?_, ?_, ?_⟩
  · intro s n h
    simp [tape_left, h]
  · intro s n h
    simp [tape_left, h]
  · exact fun fuel s r h => run_rhs_stop_head fuel s r h
  · intro fuel k s r h
    refine ⟨?_, run_move_moves fuel s (r, true) h⟩
    simp only [runLoop]
    rw [h]

def vmC2 : VM := mkVM [0] [] 0

theorem c2_left_move_spec_witness :
    vmC2.head < 1 ∧ tape_left vmC2 1 = ({ vmC2 with head := 0 }, true) :=
  ⟨by decide, c2_left_move_spec.1 vmC2 1 (by decide)⟩

/-- Claim C5: at or past the allocated end, `read_tape` returns the blank
symbol 0 (and, being a pure function of the state, does not grow the tape or
allocate), and `write_tape 0` is the identity on the whole VM state: the
tape, its length, and the allocation counters are untouched. -/
theorem c5_blank_semantics (s : VM) (h : s.tape.length ≤ s.head) :
    read_tape s = 0 ∧ write_tape s 0 = s := by
  have h1 : ¬ s.head < s.tape.length := by omega
  constructor
  · simp [read_tape, h]
  · cases s with
    | mk bytes ip tape head address sRegs sCount yRegs yCount sScr yScr bnd mv al fr =>
      simp_all [write_tape, writeGrow, writeHeapEvents]

def vmC5 : VM := mkVM [] [] 3

theorem c5_blank_semantics_witness :
    vmC5.tape.length ≤ vmC5.head ∧
      (read_tape vmC5 = 0 ∧ write_tape vmC5 0 = vmC5) :=
  ⟨by decide, c5_blank_semantics vmC5 (by decide)⟩

end Tml

namespace Tml

/-- Claim C4: a write below the allocated length stores in place; a nonzero
write at or past the allocated length (of a nonempty tape, as `init_tape`
guarantees) grows the backing array so the head is in range, leaves every
previously allocated cell unchanged, zero-fills every newly exposed cell,
and stores the value at the head cell. -/
theorem c4_write_tape_spec (s : VM) (v : Nat) (hlen : 0 < s.tape.length) :
    (s.head < s.tape.length →
      (write_tape s v).tape = s.tape.set s.head v) ∧
    (s.tape.length ≤ s.head → v ≠ 0 →
      s.head < (write_tape s v).tape.length ∧
      (write_tape s v).tape.getD s.head 0 = v ∧
      (∀ i, i < s.tape.length →
        (write_tape s v).tape.getD i 0 = s.tape.getD i 0) ∧
      (∀ i, s.tape.length ≤ i → i ≠ s.head →
        (write_tape s v).tape.getD i 0 = 0)) := by
  constructor
  · intro h
    simp [write_tape, writeGrow, h]
  · intro h hv
    have h1 : ¬ s.head < s.tape.length := by omega
    have hL : s.tape.length ≤ 2 * s.head := by omega
    have hhead : 0 < s.head := by omega
    have htake : s.tape.take (2 * s.head) = s.tape := List.take_of_length_le hL
    have htape : (write_tape s v).tape =
        (s.tape ++ List.replicate (2 * s.head - s.tape.length) 0).set s.head v := by
      simp [write_tape, writeGrow, h1, hv, htake]
    have hblen :
        (s.tape ++ List.replicate (2 * s.head - s.tape.length) 0).length =
          2 * s.head := by
      simp
      omega
    have hi : s.head < (s.tape ++ List.replicate (2 * s.head - s.tape.length) 0).length := by
      omega
    refine ⟨?_, ?_, ?_, ?_⟩
    · rw [htape]
      simp only [List.length_set]
      omega
    · rw [htape, List.getD_eq_getElem?_getD, List.getElem?_set_eq_of_lt v hi]
      rfl
    · intro i hi2
      have hne : s.head ≠ i := by omega
      rw [htape, List.getD_eq_getElem?_getD, List.getElem?_set_ne hne,
        List.getD_eq_getElem?_getD]
      simp [List.getElem?_append, hi2]
    · intro i hge hne
      rw [htape, List.getD_eq_getElem?_getD, List.getElem?_set_ne (Ne.symm hne),
        List.getElem?_append_right hge]
      simp only [List.getElem?_replicate]
      split <;> rfl

def vmC4 : VM := mkVM [] [5] 3

theorem c4_write_tape_spec_witness :
    0 < vmC4.tape.length ∧ vmC4.tape.length ≤ vmC4.head ∧ (7 : Nat) ≠ 0 ∧
      vmC4.head < (write_tape vmC4 7).tape.length :=
  ⟨by decide, by decide, by decide,
    ((c4_write_tape_spec vmC4 7 (by decide)).2 (by decide) (by decide)).1⟩

end Tml

namespace Tml

/-- Claim C6: `move_count` never exceeds `max_moves` on any return from
`run`; the budget check precedes each move (a loop entered with an exhausted
budget returns at once, running no `run_move` and hence no RHS); and in
particular `run` with `max_moves = 0` executes no move, leaving the tape and
head exactly as initialization produced them and the move count 0. -/
theorem c6_move_budget :
    (∀ (fuel : Nat) (bytes tape0 : List Nat) (maxMoves : Nat) (s : VM),
      run fuel bytes tape0 maxMoves = some s → s.moves ≤ maxMoves) ∧
    (∀ (fuel : Nat) (s : VM), runLoop fuel 0 s = some s) ∧
    (∀ (fuel : Nat) (bytes tape0 : List Nat) (s : VM),
      run fuel bytes tape0 0 = some s →
        s.tape = (initVM bytes tape0).tape ∧ s.head = 0 ∧ s.moves = 0) := by
  refine ⟨?_, ?_, ?_⟩
  · intro fuel bytes tape0 m s h
    unfold run at h
    have h2 := runLoop_moves fuel m _ s h
    have h3 : ({ initVM bytes tape0 with
        ip := u32At bytes 2, address := u32At bytes 2 } : VM).moves = 0 := rfl
    omega
  · intro fuel s
    rfl
  · intro fuel bytes tape0 s h
    have h2 : some ({ initVM bytes tape0 with
        ip := u32At bytes 2, address := u32At bytes 2 } : VM) = some s := h
    cases h2
    exact ⟨rfl, rfl, rfl⟩

def c6Bytes : List Nat := [0, 0, 6, 0, 0, 0, 19]

theorem c6_move_budget_witness :
    ∃ s, run 5 c6Bytes [] 3 = some s ∧ s.moves ≤ 3 := by
  cases hrun : run 5 c6Bytes [] 3 with
  | none =>
    have hs : (run 5 c6Bytes [] 3).isSome = true := by decide
    rw [hrun] at hs
    simp at hs
  | some s => exact ⟨s, rfl, c6_move_budget.1 5 c6Bytes [] 3 s hrun⟩

/-- Claim C9: the allocated tape length never decreases: not through a
write, not through a whole RHS, a whole move, or a whole bounded run; and
after initialization it equals `max (initial length) 256`, so any state a
run returns has at least that much backing storage. -/
theorem c9_tape_length_monotone :
    (∀ (s : VM) (v : Nat), s.tape.length ≤ (write_tape s v).tape.length) ∧
    (∀ (fuel : Nat) (s : VM) (r : VM × Bool),
      run_rhs fuel s = some r → s.tape.length ≤ r.1.tape.length) ∧
    (∀ (fuel : Nat) (s : VM) (r : VM × Bool),
      run_move fuel s = some r → s.tape.length ≤ r.1.tape.length) ∧
    (∀ (bytes tape0 : List Nat),
      (initVM bytes tape0).tape.length = max tape0.length initialTapeCapacity) ∧
    (∀ (fuel : Nat) (bytes tape0 : List Nat) (m : Nat) (s : VM),
      run fuel bytes tape0 m = some s →
        max tape0.length initialTapeCapacity ≤ s.tape.length) := by
  refine ⟨?_, ?_, ?_, ?_, ?_⟩
  · intro s v
    exact writeGrow_length s.tape s.head v
  · exact fun fuel s r h =>
      run_rhs_induct (fun a b => a.tape.length ≤ b.tape.length)
        (fun _ => Nat.le_refl _) (fun _ _ _ h1 h2 => h1.trans h2)
        rhsStep_tape_length fuel s r h
  · exact run_move_tape_length
  · exact initVM_tape_length
  · intro fuel bytes tape0 m s h
    unfold run at h
    have h2 := runLoop_tape_length fuel m _ s h
    have h3 : ({ initVM bytes tape0 with
        ip := u32At bytes 2, address := u32At bytes 2 } : VM).tape.length =
          max tape0.length initialTapeCapacity := initVM_tape_length bytes tape0
    omega

def c9Bytes : List Nat := [0, 0, 6, 0, 0, 0, 19]

theorem c9_tape_length_monotone_witness :
    ∃ s, run 5 c9Bytes [] 3 = some s ∧
      max ([] : List Nat).length initialTapeCapacity ≤ s.tape.length := by
  cases hrun : run 5 c9Bytes [] 3 with
  | none =>
    have hs : (run 5 c9Bytes [] 3).isSome = true := by decide
    rw [hrun] at hs
    simp at hs
  | some s =>
    exact ⟨s, rfl, c9_tape_length_monotone.2.2.2.2 5 c9Bytes [] 3 s hrun⟩

/-- Claim C10: arm scanning is read-only.  Whatever `run_move` returns is
either produced by a HALT arm, in which case the returned state is the entry
state with only the instruction pointer changed (tape, head, both register
files, both scratch stacks, and the bound register are untouched), or it is
produced by the RHS evaluator entered from a state that differs from the
entry state only in the instruction pointer (for a matching COMPARE arm) or
in the instruction pointer and the bound register (for a matching OTHER
arm). -/
theorem c10_scan_frame (fuel : Nat) (s : VM) (r : VM × Bool)
    (h : run_move fuel s = some r) :
    (∃ p, r = ({ s with ip := p }, true)) ∨
    (∃ f p, run_rhs f { s with ip := p } = some r) ∨
    (∃ f p, run_rhs f { s with ip := p, bound := read_tape s } = some r) := by
  induction fuel generalizing s with
  | zero => simp [run_move] at h
  | succ n ih =>
    simp only [run_move] at h
    rcases moveStep_frame s with ⟨p, hm⟩ | ⟨p, hm⟩ | hm | hm <;>
      rw [hm] at h <;> dsimp only at h
    · rcases ih _ h with ⟨p2, hr⟩ | ⟨f, p2, hr⟩ | ⟨f, p2, hr⟩
      · exact Or.inl ⟨p2, hr⟩
      · exact Or.inr (Or.inl ⟨f, p2, hr⟩)
      · exact Or.inr (Or.inr ⟨f, p2, hr⟩)
    · exact Or.inr (Or.inl ⟨n, p, h⟩)
    · exact Or.inr (Or.inr ⟨n, s.ip + 1, h⟩)
    · cases h
      exact Or.inl ⟨s.ip + 1, rfl⟩

def vmC10 : VM := mkVM [19] [] 0

theorem c10_scan_frame_witness :
    ∃ r, run_move 1 vmC10 = some r ∧
      ((∃ p, r = ({ vmC10 with ip := p }, true)) ∨
       (∃ f p, run_rhs f { vmC10 with ip := p } = some r) ∨
       (∃ f p, run_rhs f { vmC10 with ip := p, bound := read_tape vmC10 } =
          some r)) := by
  cases hrun : run_move 1 vmC10 with
  | none =>
    have hs : (run_move 1 vmC10).isSome = true := by decide
    rw [hrun] at hs
    simp at hs
  | some r => exact ⟨r, rfl, c10_scan_frame 1 vmC10 r hrun⟩

end Tml

namespace Tml

/-- Claim C7: a COMPARE_ARG arm occupies 4 header bytes (opcode, arg index,
u16 skip) and a COMPARE_VAL arm 5 (opcode, u16 value, u16 skip).  When the
match test against the symbol under the head fails, scanning resumes exactly
`skip` bytes past the header (the skip field is fetched, advancing the IP by
2, and then added), landing on the next arm header; when it succeeds, the
skip field is consumed and the RHS evaluator is entered at the first RHS
opcode, immediately after the header. -/
theorem c7_compare_skip (fuel : Nat) (s : VM) :
    (byteAt s.bytes s.ip = opCOMPARE_ARG →
      (read_tape s = s.symbolRegs (byteAt s.bytes (s.ip + 1)) →
        run_move (fuel + 1) s = run_rhs fuel { s with ip := s.ip + 4 }) ∧
      (read_tape s ≠ s.symbolRegs (byteAt s.bytes (s.ip + 1)) →
        run_move (fuel + 1) s =
          run_move fuel { s with ip := s.ip + 4 + u16At s.bytes (s.ip + 2) })) ∧
    (byteAt s.bytes s.ip = opCOMPARE_VAL →
      (u16At s.bytes (s.ip + 1) = read_tape s →
        run_move (fuel + 1) s = run_rhs fuel { s with ip := s.ip + 5 }) ∧
      (u16At s.bytes (s.ip + 1) ≠ read_tape s →
        run_move (fuel + 1) s =
          run_move fuel { s with ip := s.ip + 5 + u16At s.bytes (s.ip + 3) })) := by
  constructor
  · intro hop
    constructor
    · intro hmatch
      have step : moveStep s = .rhs { s with ip := s.ip + 4 } := by
        unfold moveStep
        rw [hop]
        show moveExec 16 s = _
        dsimp only [moveExec]
        rw [if_pos hmatch]
      simp only [run_move, step]
    · intro hmiss
      have step : moveStep s =
          .next { s with ip := s.ip + 4 + u16At s.bytes (s.ip + 2) } := by
        unfold moveStep
        rw [hop]
        show moveExec 16 s = _
        dsimp only [moveExec]
        rw [if_neg hmiss]
      simp only [run_move, step]
  · intro hop
    constructor
    · intro hmatch
      have step : moveStep s = .rhs { s with ip := s.ip + 5 } := by
        unfold moveStep
        rw [hop]
        show moveExec 17 s = _
        dsimp only [moveExec]
        rw [if_pos hmatch]
      simp only [run_move, step]
    · intro hmiss
      have step : moveStep s =
          .next { s with ip := s.ip + 5 + u16At s.bytes (s.ip + 3) } := by
        unfold moveStep
        rw [hop]
        show moveExec 17 s = _
        dsimp only [moveExec]
        rw [if_neg hmiss]
      simp only [run_move, step]

def vmC7 : VM := mkVM [17, 0, 0, 3, 0, 19] [] 0

theorem c7_compare_skip_witness :
    byteAt vmC7.bytes vmC7.ip = opCOMPARE_VAL ∧
    u16At vmC7.bytes (vmC7.ip + 1) = read_tape vmC7 ∧
    run_move 4 vmC7 = run_rhs 3 { vmC7 with ip := vmC7.ip + 5 } :=
  ⟨by decide, by decide,
    ((c7_compare_skip 3 vmC7).2 (by decide)).1 (by decide)⟩

/-- Claim C8: MAKE_STATE with operands `k` (u8) and `addr` (u32) removes
exactly the top `k` entries of the state scratch stack and installs them, in
push order, as the children of a fresh `StateValue` with address `addr`,
drains the entire symbol scratch stack (in push order) into its symbol list,
and pushes the new value on top of the remaining state scratch; execution
then continues after the 6-byte instruction.  The hypothesis `k ≤` stack
size is the bytecode well-formedness precondition (a deeper pop underflows
the C array). -/
theorem c8_make_state (fuel : Nat) (s : VM)
    (hop : byteAt s.bytes s.ip = opMAKE_STATE)
    (hk : byteAt s.bytes (s.ip + 1) ≤ s.stateScratch.length) :
    run_rhs (fuel + 1) s = run_rhs fuel
      { s with
        ip := s.ip + 6,
        stateScratch :=
          s.stateScratch.take
              (s.stateScratch.length - byteAt s.bytes (s.ip + 1)) ++
            [StateV.mk (u32At s.bytes (s.ip + 2))
              (s.stateScratch.drop
                (s.stateScratch.length - byteAt s.bytes (s.ip + 1)))
              s.symbolScratch],
        symbolScratch := [],
        allocs :=
          s.allocs + (if byteAt s.bytes (s.ip + 1) = 0 then 0 else 1) +
            (if s.symbolScratch.isEmpty then 0 else 1) } := by
  have step : rhsStep s = .cont
      { s with
        ip := s.ip + 6,
        stateScratch :=
          s.stateScratch.take
              (s.stateScratch.length - byteAt s.bytes (s.ip + 1)) ++
            [StateV.mk (u32At s.bytes (s.ip + 2))
              (s.stateScratch.drop
                (s.stateScratch.length - byteAt s.bytes (s.ip + 1)))
              s.symbolScratch],
        symbolScratch := [],
        allocs :=
          s.allocs + (if byteAt s.bytes (s.ip + 1) = 0 then 0 else 1) +
            (if s.symbolScratch.isEmpty then 0 else 1) } := by
    unfold rhsStep
    rw [hop]
    show rhsExec 13 s = _
    rfl
  simp only [run_rhs, step]

def vmC8 : VM :=
  { mkVM [13, 1, 7, 0, 0, 0] [] 0 with
    stateScratch := [StateV.mk 5 [] []],
    symbolScratch := [9] }

theorem c8_make_state_witness :
    byteAt vmC8.bytes vmC8.ip = opMAKE_STATE ∧
    byteAt vmC8.bytes (vmC8.ip + 1) ≤ vmC8.stateScratch.length ∧
    run_rhs 3 vmC8 = run_rhs 2
      { vmC8 with
        ip := vmC8.ip + 6,
        stateScratch :=
          vmC8.stateScratch.take
              (vmC8.stateScratch.length - byteAt vmC8.bytes (vmC8.ip + 1)) ++
            [StateV.mk (u32At vmC8.bytes (vmC8.ip + 2))
              (vmC8.stateScratch.drop
                (vmC8.stateScratch.length - byteAt vmC8.bytes (vmC8.ip + 1)))
              vmC8.symbolScratch],
        symbolScratch := [],
        allocs :=
          vmC8.allocs + (if byteAt vmC8.bytes (vmC8.ip + 1) = 0 then 0 else 1) +
            (if vmC8.symbolScratch.isEmpty then 0 else 1) } :=
  ⟨by decide, by decide, c8_make_state 2 vmC8 (by decide) (by decide)⟩

end Tml

namespace Tml

/-- Bytecode exhibiting the FINAL_ARG symbol-copy bug.  Entry state at 6
pushes symbol 0xFF00 and FINAL_STATEs to 15, so symbol register 0 holds
0xFF00.  The state at 15 pushes symbol 0x1234, MAKE_STATEs a value with
symbol list [0x1234] and address 33, and FINAL_STATEs to 30, leaving that
value in state argument register 0 while symbol register 0 still holds the
stale 0xFF00 (the symbol scratch was drained by MAKE_STATE, so FINAL_STATE
copies no symbols).  The state at 30 executes FINAL_ARG 0; the state at 33
is HALT. -/
def c1Bytes : List Nat :=
  [0, 0, 6, 0, 0, 0,
   18, 8, 0, 255, 14, 15, 0, 0, 0,
   18, 8, 52, 18, 13, 0, 33, 0, 0, 0, 14, 30, 0, 0, 0,
   18, 15, 0,
   19]

/-- Claim C1 (evaluation at the failing input): after FINAL_ARG consumes a
state value whose symbol sequence is [0x1234], the VM halts at that value's
address 33 with `symbol_count` 1, but symbol argument register 0 holds
0xFF34 = 65332, not 0x1234 = 4660: the memcpy in the FINAL_ARG case of vm.c
copies `symbol_count * sizeof(uint8_t)` bytes instead of
`symbol_count * sizeof(uint16_t)`, so only the low byte of the symbol is
installed and the register's stale high byte 0xFF survives. -/
theorem c1_final_arg_byte_copy_eval :
    (run 50 c1Bytes [] 10).map
        (fun s => (s.address, s.symbolCount, s.symbolRegs 0, s.moves)) =
      some (33, 1, 65332, 3) := by
  rfl

/-- Bytecode exhibiting the STOP-path leak.  The entry state at 6 matches
OTHER, pushes symbol 1, MAKE_STATEs a value whose symbol list [1] lives in a
fresh heap block, and then executes LEFT with the head already at 0: the
underrun STOPs the move, the run halts, and the envelope parked on the state
scratch stack is never freed. -/
def c3Bytes : List Nat :=
  [0, 0, 6, 0, 0, 0,
   18, 8, 1, 0, 13, 0, 0, 0, 0, 0, 0]

/-- Claim C3 (evaluation at the failing input): the run ends by a
left-boundary STOP with head 0 and move count 0; after `cleanup`, 2 heap
blocks were allocated (the tape and the MAKE_STATE symbol list) but only 1
was freed (the tape): `cleanup` frees only the tape and the argument
registers, so the envelope left on the state scratch stack leaks and
allocations do not equal frees. -/
theorem c3_stop_leak_eval :
    (run 50 c3Bytes [] 10).map
        (fun s => ((cleanup s).allocs, (cleanup s).frees, s.head, s.moves)) =
      some (2, 1, 0, 0) := by
  rfl

end Tml
